import Mathlib

/-! Shallow embedding of the QuakeWorld `serverstat` decoding pipeline.

Rust strings are modelled as `List Char`, byte buffers as `List Nat`
(each entry < 256).  Fallible Rust functions (`TryFrom`) are modelled as
functions into explicit result types; an out-of-bounds vector index in
the source (which panics in Rust) is modelled as a distinct `panicked`
outcome, kept separate from returned `Err` values.
-/

/-- Model of a Rust `String`/`&str`: a list of unicode characters. -/
abbrev Str := List Char

/-- Convenience: the character list of a Lean string literal. -/
def str (s : String) : Str := s.data

/-- Convenience: the byte list of an ASCII string literal. -/
def strBytes (s : String) : List Nat := s.data.map Char.toNat

/-! Tokenizer (src/tokenize.rs).

`tokenize` folds over the characters of a line keeping the accumulated
token list, the current token and the in-quote flag, exactly as the
source's `for c in value.chars()` loop does, and finally pushes the
(possibly empty) current token. -/

/-- Loop state of `tokenize`: emitted tokens, current token, quote mode. -/
structure TkState where
  tokens : List Str
  current : Str
  inQuote : Bool
deriving DecidableEq

/-- One iteration of the `tokenize` character loop (src/tokenize.rs:7-18). -/
def tokenizeStep (st : TkState) (c : Char) : TkState :=
  if c = '"' then { st with inQuote := !st.inQuote }
  else if c = ' ' then
    if st.inQuote then { st with current := st.current ++ [' '] }
    else { tokens := st.tokens ++ [st.current], current := [], inQuote := st.inQuote }
  else { st with current := st.current ++ [c] }

/-- Model of `tokenize` (src/tokenize.rs:1-23): split one line into quote-aware tokens. -/
def tokenize (s : Str) : List Str :=
  let st := s.foldl tokenizeStep { tokens := [], current := [], inQuote := false }
  st.tokens ++ [st.current]

/-- Recursive companion of `tokenize`: the tokens still to be produced from
the remaining characters, given the current token and quote mode. -/
def tokAux : Str → Str → Bool → List Str
  | [], cur, _ => [cur]
  | c :: rest, cur, q =>
    if c = '"' then tokAux rest cur (!q)
    else if c = ' ' then
      if q then tokAux rest (cur ++ [' ']) q
      else cur :: tokAux rest [] q
    else tokAux rest (cur ++ [c]) q

/-- Number of token-terminating (out-of-quote) spaces in the remaining input,
given the current quote mode. -/
def unquotedSpaces : Str → Bool → Nat
  | [], _ => 0
  | c :: rest, q =>
    if c = '"' then unquotedSpaces rest (!q)
    else if c = ' ' then
      if q then unquotedSpaces rest q else 1 + unquotedSpaces rest q
    else unquotedSpaces rest q

/-- Quote mode after processing a character list, starting from mode `q`. -/
def endQuote : Str → Bool → Bool
  | [], q => q
  | c :: rest, q => endQuote rest (if c = '"' then !q else q)

/-! Rust integer parsing.

Models of `str::parse::<uN>` / `str::parse::<iN>`: an optional sign
(`+` for unsigned; `+`/`-` for signed) followed by one or more ASCII
decimal digits, rejected on overflow of the target width. -/

/-- Value of a non-empty all-ASCII-digit character list, `none` otherwise. -/
def digitsVal (cs : Str) : Option Nat :=
  if cs = [] ∨ ¬ cs.all Char.isDigit then none
  else some (cs.foldl (fun acc c => 10 * acc + (c.toNat - '0'.toNat)) 0)

/-- Model of Rust `str::parse::<uN>` for an `N`-bit unsigned integer. -/
def parseU (bits : Nat) (cs : Str) : Option Nat :=
  let body := match cs with
    | '+' :: rest => rest
    | _ => cs
  match digitsVal body with
  | some n => if n < 2 ^ bits then some n else none
  | none => none

/-- Model of Rust `str::parse::<iN>` for an `N`-bit signed integer. -/
def parseI (bits : Nat) (cs : Str) : Option Int :=
  match cs with
  | '-' :: rest =>
    match digitsVal rest with
    | some n => if n ≤ 2 ^ (bits - 1) then some (-(n : Int)) else none
    | none => none
  | '+' :: rest =>
    match digitsVal rest with
    | some n => if n < 2 ^ (bits - 1) then some (n : Int) else none
    | none => none
  | _ =>
    match digitsVal cs with
    | some n => if n < 2 ^ (bits - 1) then some (n : Int) else none
    | none => none

/-! Client record decoder (src/client.rs). -/

/-- Model of `name.trim_start_matches("\\s\\")` (src/client.rs:54): remove
every leading repetition of the three-character pattern `\s\`. -/
def trimS : Str → Str
  | '\\' :: 's' :: '\\' :: rest => trimS rest
  | s => s

/-- Structure `QuakeClient` (src/client.rs:15-28). -/
structure QuakeClient where
  id : Nat
  name : Str
  team : Str
  frags : Int
  ping : Nat
  time : Nat
  top_color : Nat
  bottom_color : Nat
  skin : Str
  auth_cc : Str
  is_spectator : Bool
  is_bot : Bool
deriving DecidableEq

/-- Outcome of `QuakeClient::try_from`: `Ok`, returned `Err`, or a panic
raised by an out-of-bounds `parts[i]` index. -/
inductive ClientRes where
  | ok (c : QuakeClient)
  | err
  | panicked
deriving DecidableEq

/-- Model of `QuakeClient::try_from` after tokenization (src/client.rs:33-73).
Accessing `parts[i]` past the end of the token list is the `panicked`
outcome; a failed numeric parse is the `err` outcome (the `?` operator). -/
def QuakeClient.tryFromTokens (parts : List Str) : ClientRes :=
  match parts.get? 0 with
  | none => .panicked
  | some t0 =>
  match parseU 32 t0 with
  | none => .err
  | some id =>
  match parts.get? 1 with
  | none => .panicked
  | some t1 =>
  match parseI 32 t1 with
  | none => .err
  | some frags0 =>
  match parts.get? 2 with
  | none => .panicked
  | some t2 =>
  match parseU 32 t2 with
  | none => .err
  | some time =>
  match parts.get? 3 with
  | none => .panicked
  | some t3 =>
  match parseI 32 t3 with
  | none => .err
  | some pingRaw =>
  match parts.get? 4 with
  | none => .panicked
  | some name0 =>
  match parts.get? 5 with
  | none => .panicked
  | some skin =>
  match parts.get? 6 with
  | none => .panicked
  | some t6 =>
  match parseU 8 t6 with
  | none => .err
  | some top_color =>
  match parts.get? 7 with
  | none => .panicked
  | some t7 =>
  match parseU 8 t7 with
  | none => .err
  | some bottom_color =>
  let team := (parts.get? 8).getD []
  let auth_cc := (parts.get? 9).getD []
  let is_spectator : Bool := decide (pingRaw < 1)
  let frags : Int := if is_spectator then 0 else frags0
  let name : Str := if is_spectator then trimS name0 else name0
  let ping : Nat := pingRaw.natAbs
  let is_bot : Bool := decide (¬ (12 ≤ ping ∧ ping ≤ 600))
  .ok { id, name, team, frags, ping, time, top_color, bottom_color,
        skin, auth_cc, is_spectator, is_bot }

/-- Model of `QuakeClient::try_from` on a decoded line: tokenize, then decode fields. -/
def QuakeClient.tryFromLine (line : Str) : ClientRes :=
  QuakeClient.tryFromTokens (tokenize line)

/-! Hostport (src/hostport.rs) and QTV stream decoder (src/qtv.rs). -/

/-- Model of Rust `str::split_once(sep)`: split at the first occurrence of
`sep`, which is dropped; `none` when `sep` does not occur. -/
def splitOnce (sep : Char) : Str → Option (Str × Str)
  | [] => none
  | c :: rest =>
    if c = sep then some ([], rest)
    else
      match splitOnce sep rest with
      | some (a, b) => some (c :: a, b)
      | none => none

/-- Structure `Hostport` (src/hostport.rs:10-13). -/
structure Hostport where
  host : Str
  port : Nat
deriving DecidableEq

/-- Model of `Hostport::try_from` (src/hostport.rs:18-26): split on the first `:`;
no `:` or an unparsable `u16` port is an error (`none`). -/
def Hostport.tryFrom (s : Str) : Option Hostport :=
  match splitOnce ':' s with
  | none => none
  | some (host, portStr) =>
    match parseU 16 portStr with
    | none => none
    | some p => some ⟨host, p⟩

/-- Structure `QtvStream` (src/qtv.rs:65-72). -/
structure QtvStream where
  id : Nat
  name : Str
  number : Nat
  address : Hostport
  client_count : Nat
  client_names : List Str
deriving DecidableEq

/-- Outcome of `QtvStream::try_from`: `Ok`, returned `Err`, or an indexing
panic. -/
inductive QtvRes where
  | ok (q : QtvStream)
  | err
  | panicked
deriving DecidableEq

/-- The `(number, address)` computation of `QtvStream::try_from`
(src/qtv.rs:88-94): split the combined locator on the first `@`; text
before the `@` that fails to parse as `u32` defaults to 0
(`unwrap_or_default`); with no `@` the number is 0 and the whole token is
the locator. -/
def parseLocator (url : Str) : Nat × Str :=
  match splitOnce '@' url with
  | some (numberStr, hostport) => ((parseU 32 numberStr).getD 0, hostport)
  | none => (0, url)

/-- Model of `QtvStream::try_from` after tokenization (src/qtv.rs:83-106).
`parts[4]` is read (and can panic) before the hostport conversion, as in
the source; a failing `Hostport::try_from` fails the record (`err`). -/
def QtvStream.tryFromTokens (parts : List Str) : QtvRes :=
  match parts.get? 1 with
  | none => .panicked
  | some t1 =>
  match parseU 32 t1 with
  | none => .err
  | some id =>
  match parts.get? 2 with
  | none => .panicked
  | some name =>
  match parts.get? 3 with
  | none => .panicked
  | some url =>
  let na := parseLocator url
  match parts.get? 4 with
  | none => .panicked
  | some t4 =>
  match parseU 32 t4 with
  | none => .err
  | some client_count =>
  match Hostport.tryFrom na.2 with
  | none => .err
  | some address => .ok ⟨id, name, na.1, address, client_count, []⟩

/-- Model of `QtvStream::try_from` on a decoded line. -/
def QtvStream.tryFromLine (line : Str) : QtvRes :=
  QtvStream.tryFromTokens (tokenize line)

/-! Status frame decoder (src/svc_status.rs). -/

/-- The two `Err` values of `Status119Response::try_from`
(src/svc_status.rs:47 and 57). -/
inductive StatusErr where
  | invalidHeader
  | invalidBody
deriving DecidableEq

/-- Structure `Status119Response` (src/svc_status.rs:33-37).  The settings are
produced by the external `quake_serverinfo` collaborator from the first
record's bytes; the model keeps that raw record. -/
structure Status119Response where
  settingsRecord : List Nat
  clients : List QuakeClient
  qtv_stream : Option QtvStream
deriving DecidableEq

/-- Outcome of `Status119Response::try_from`. -/
inductive StatusRes where
  | ok (r : Status119Response)
  | err (e : StatusErr)
  | panicked
deriving DecidableEq

/-- Split a byte list at every occurrence of a line feed (byte 10), the
delimiter being dropped; always returns at least one (possibly empty)
chunk. -/
def splitOnByte : List Nat → List (List Nat)
  | [] => [[]]
  | b :: rest =>
    if b = 10 then [] :: splitOnByte rest
    else
      match splitOnByte rest with
      | t :: ts => (b :: t) :: ts
      | [] => [[b]]

/-- Model of `Cursor::split(10)` over the body bytes
(src/svc_status.rs:52): like `splitOnByte`, except that an empty input
yields no chunks and a trailing delimiter does not produce a final empty
chunk. -/
def rustSplitLines (l : List Nat) : List (List Nat) :=
  if l = [] then []
  else if l.getLast? = some 10 then (splitOnByte l).dropLast
  else splitOnByte l

/-- The 5-byte status response magic: four `0xFF` bytes then ASCII `n`
(src/svc_status.rs:44). -/
def statusHeader : List Nat := [255, 255, 255, 255, 110]

/-- Constant `MIN_SERVERINFO_LENGTH = "hostname\x".len()` (src/svc_status.rs:54). -/
def MIN_SERVERINFO_LENGTH : Nat := (str "hostname\\x").length

/-- The `for row in rows` classification loop of
`Status119Response::try_from` (src/svc_status.rs:64-73), which runs over
every record including the first: a record whose bytes start with
`"qtv "` overwrites the stream slot with `Ok`-or-`None`; any other record
is appended to the client list when it decodes, silently dropped when it
returns `Err`.  A panic inside either record decoder aborts the whole
loop (`none`). -/
def classifyRows (decode : List Nat → Str) :
    List (List Nat) → List QuakeClient → Option QtvStream →
    Option (List QuakeClient × Option QtvStream)
  | [], clients, qtv => some (clients, qtv)
  | row :: rest, clients, qtv =>
    if (strBytes "qtv ").isPrefixOf row then
      match QtvStream.tryFromLine (decode row) with
      | .panicked => none
      | .ok q => classifyRows decode rest clients (some q)
      | .err => classifyRows decode rest clients none
    else
      match QuakeClient.tryFromLine (decode row) with
      | .panicked => none
      | .ok c => classifyRows decode rest (clients ++ [c]) qtv
      | .err => classifyRows decode rest clients qtv

/-- Model of `Status119Response::try_from` (src/svc_status.rs:42-80), parameterized
by the external extended-charset decoder (`quake_text`'s
`bytestr::to_unicode`), which is applied to each record before
tokenizing. -/
def Status119Response.tryFrom (decode : List Nat → Str) (bytes : List Nat) : StatusRes :=
  if ¬ statusHeader.isPrefixOf bytes then .err .invalidHeader
  else
    let body := bytes.drop statusHeader.length
    let rows := rustSplitLines body
    if rows = [] ∨ (rows.headD []).length < MIN_SERVERINFO_LENGTH then .err .invalidBody
    else
      match classifyRows decode rows [] none with
      | none => .panicked
      | some (clients, qtv) => .ok ⟨rows.headD [], clients, qtv⟩

/-- Modelled from the spec: the external extended-charset text decoder
(`decode_extended_charset`, §6), an out-of-scope collaborator that maps
the server's 8-bit character set to display-equivalent Unicode.  On the
7-bit ASCII range used by every concrete input below it is the identity;
this model maps each byte to the unicode character of the same code
point. -/
def asciiDecode (bytes : List Nat) : Str :=
  bytes.map (fun b => Char.ofNat b)

/-! Team aggregation (src/team.rs).

`from_players` accumulates per-team sums in a `HashMap` keyed by team
name and `get_majority_color` counts color pairs in a `HashMap`; both
then iterate the map in an order the Rust standard library leaves
unspecified.  The model therefore takes the iteration order as an
explicit parameter, constrained to enumerate exactly the map's entries;
per-team sums themselves are order-independent. -/

/-- Structure `Player` (src/gameserver.rs:62-74). -/
structure Player where
  id : Nat
  name : Str
  team : Str
  frags : Int
  ping : Nat
  time : Nat
  top_color : Nat
  bottom_color : Nat
  skin : Str
  auth_cc : Str
  is_bot : Bool
deriving DecidableEq

/-- Structure `Team` (src/team.rs:11-17). -/
structure Team where
  name : Str
  frags : Int
  ping : Nat
  top_color : Nat
  bottom_color : Nat
deriving DecidableEq

/-- One step of the max-count scan of `get_majority_color`
(src/team.rs:85-90): a strictly larger count replaces the running
maximum. -/
def maxFoldStep (acc : Nat × (Nat × Nat)) (e : (Nat × Nat) × Nat) : Nat × (Nat × Nat) :=
  if e.2 > acc.1 then (e.2, e.1) else acc

/-- The `for (color, count) in color_count` scan of `get_majority_color`,
starting from `max_count = 0`, `majority_color = (0, 0)`. -/
def getMajorityColorFold (l : List ((Nat × Nat) × Nat)) : Nat × (Nat × Nat) :=
  l.foldl maxFoldStep (0, (0, 0))

/-- Model of `get_majority_color` (src/team.rs:68-93), parameterized by the order
`l` in which the `color_count` hash map's `(color, count)` entries are
iterated.  Fewer than 3 color pairs short-circuit to `colors[0]`
(`(0,0)` when empty) without any counting. -/
def getMajorityColorWithEnum (colors : List (Nat × Nat))
    (l : List ((Nat × Nat) × Nat)) : Nat × Nat :=
  if colors = [] then (0, 0)
  else if colors.length < 3 then colors.headD (0, 0)
  else (getMajorityColorFold l).2

/-- Predicate: `l` enumerates the entries of the `color_count` map built from
`colors` (src/team.rs:75-80): its keys are exactly the distinct color
pairs, each once, and each value is that pair's occurrence count. -/
def IsCountEnum (colors : List (Nat × Nat)) (l : List ((Nat × Nat) × Nat)) : Prop :=
  (l.map Prod.fst).Perm colors.dedup ∧ ∀ e ∈ l, e.2 = colors.count e.1

/-- The members of team `t`, in player-list order (the order in which
`temp.entry(...)` accumulation sees them, src/team.rs:32-39). -/
def teamMembers (players : List Player) (t : Str) : List Player :=
  players.filter (fun p => p.team = t)

/-- Wrap an integer into the `i32` range `[-2147483648, 2147483648)`: the
value of a two's-complement 32-bit accumulation.  Rust's release-mode `+`
on `i32` wraps (debug builds panic instead). -/
def wrap32 (z : Int) : Int := (z + 2147483648) % 4294967296 - 2147483648

/-- Value of `TempTeam.frags` for team `t` (src/team.rs:35): the members'
frags accumulated with `i32` (wrapping) addition, in member order. -/
def teamFragsI32 (players : List Player) (t : Str) : Int :=
  ((teamMembers players t).map (fun p => p.frags)).foldl (fun acc f => wrap32 (acc + f)) 0

/-- Spec-side reference for the team frags, following the spec's words:
the plain (unbounded) sum of the members' frags.  Compared with the
source's `i32` accumulation `teamFragsI32`, which wraps on overflow. -/
def specTeamFrags (players : List Player) (t : Str) : Int :=
  ((teamMembers players t).map (fun p => p.frags)).sum

/-- Exact sum of the member pings of team `t`.  This is the reference
quantity for `TempTeam.ping_sum` (src/team.rs:36); the source accumulates
it in `f32` (see `teamPingF32`). -/
def teamPingSum (players : List Player) (t : Str) : Nat :=
  ((teamMembers players t).map (fun p => p.ping)).sum

/-- Value of `TempTeam.player_count` for team `t` (src/team.rs:37). -/
def teamCount (players : List Player) (t : Str) : Nat :=
  (teamMembers players t).length

/-- Value of `TempTeam.colors` for team `t`, in accumulation order (src/team.rs:38). -/
def teamColors (players : List Player) (t : Str) : List (Nat × Nat) :=
  (teamMembers players t).map (fun p => (p.top_color, p.bottom_color))

/-! Binary32 arithmetic.

The source computes the team ping in `f32` (src/team.rs:36 and 47).  The
model represents a nonnegative `f32` value exactly, as the natural number
`n` that denotes the dyadic rational `n / 2^64` (every `f32` value
arising in this pipeline is such a dyadic: 24-bit significands, binades
from `2^(-40)` up, no overflow, no NaN).  Each operation computes its
exact result and rounds it to 24 significant bits — round to nearest,
ties to even — with `fl32Scaled`, which is exactly the IEEE-754 binary32
semantics on these magnitudes. -/

/-- Fuel-bounded base-2 logarithm: `log2Fuel fuel n = ⌊log₂ n⌋` for
`2 ≤ n < 2 ^ fuel` (and 0 for `n < 2`). -/
def log2Fuel : Nat → Nat → Nat
  | 0, _ => 0
  | fuel + 1, n => if n < 2 then 0 else 1 + log2Fuel fuel (n / 2)

/-- Round the exact value `N / D` (in `2^(-64)` units) to the nearest
binary32 value, ties to even, returned in the same units: locate the
binade of the quotient, split it into a 24-bit significand `m` and a
remainder, and round the remainder by comparing its double against the
divisor cell `P`.  The `E ≤ 23` branch returns the (then exact, `D = 1`)
quotient unchanged; quotients that small do not arise from division
here. -/
def fl32Scaled (N D : Nat) : Nat :=
  if N = 0 then 0
  else
    let E := log2Fuel 200 (N / D)
    if E ≤ 23 then N / D
    else
      let d := E - 23
      let P := D * 2 ^ d
      let m := N / P
      let rem := N % P
      let m' :=
        if rem * 2 < P then m
        else if P < rem * 2 then m + 1
        else if m % 2 = 0 then m else m + 1
      m' * 2 ^ d

/-- Conversion of an unsigned integer to `f32` (`player.ping as f32`,
`player_count as f32`): round to nearest, ties to even. -/
def toF32 (n : Nat) : Nat := fl32Scaled (n * 2 ^ 64) 1

/-- Correctly rounded `f32` addition of two scaled values. -/
def f32add (x y : Nat) : Nat := fl32Scaled (x + y) 1

/-- Correctly rounded `f32` division of two scaled values (the divisor is
nonzero here). -/
def f32div (x y : Nat) : Nat := if y = 0 then 0 else fl32Scaled (x * 2 ^ 64) y

/-- The team ping of src/team.rs:36 and 47: member pings converted to
`f32` and accumulated in `f32` in member order (`ping_sum`), divided by
the `f32` conversion of the member count, rounded half away from zero
(`f32::round`, exact on an `f32` of this magnitude), and cast to `u32`
(`as u32` saturates). -/
def teamPingF32 (players : List Player) (t : Str) : Nat :=
  let s := ((teamMembers players t).map (fun p => p.ping)).foldl
    (fun acc n => f32add acc (toF32 n)) 0
  let m := f32div s (toF32 (teamCount players t))
  min ((m + 2 ^ 63) / 2 ^ 64) 4294967295

/-- Spec-side reference for the team ping, following the spec's words:
the mean of the member pings rounded to the nearest integer, ties half
up (half away from zero for nonnegative values), computed exactly as
`⌊(2·sum + count) / (2·count)⌋`.  Compared with the source's `f32`
computation `teamPingF32`, which can differ by double rounding. -/
def specTeamPing (players : List Player) (t : Str) : Nat :=
  (2 * teamPingSum players t + teamCount players t) / (2 * teamCount players t)

/-- The `Team` value built for name `t` in the `temp.values()` loop of
`from_players` (src/team.rs:42-51), with `colorEnum t` the iteration
order of that team's `color_count` map. -/
def mkTeam (colorEnum : Str → List ((Nat × Nat) × Nat)) (players : List Player)
    (t : Str) : Team :=
  { name := t
    frags := teamFragsI32 players t
    ping := teamPingF32 players t
    top_color := (getMajorityColorWithEnum (teamColors players t) (colorEnum t)).1
    bottom_color := (getMajorityColorWithEnum (teamColors players t) (colorEnum t)).2 }

/-- The comparator of `teams.sort()` (src/team.rs:62-66): teams compare by
`unicode::ord` on their names; the external collaborator's order is the
relation parameter `r`. -/
def teamLe (r : Str → Str → Prop) (a b : Team) : Prop := r a.name b.name

instance (r : Str → Str → Prop) [DecidableRel r] : DecidableRel (teamLe r) :=
  fun a b => inferInstanceAs (Decidable (r a.name b.name))

/-- Model of `from_players` (src/team.rs:29-54), parameterized by the name
comparator `r` (the external `unicode::ord`), the iteration order
`teamEnum` of the `temp` hash map's keys, and the per-team color-count
iteration orders.  The final `teams.sort()` is a stable sort, modelled by
insertion sort (all stable sorts compute the same list). -/
def fromPlayers (r : Str → Str → Prop) [DecidableRel r] (teamEnum : List Str)
    (colorEnum : Str → List ((Nat × Nat) × Nat)) (players : List Player) : List Team :=
  List.insertionSort (teamLe r) (teamEnum.map (mkTeam colorEnum players))

/-- Predicate: `teamEnum` enumerates the keys of the `temp` map built from `players`
(src/team.rs:30-39): exactly the distinct team names, each once. -/
def IsTeamEnum (players : List Player) (teamEnum : List Str) : Prop :=
  teamEnum.Perm (players.map (fun p => p.team)).dedup

instance (colors : List (Nat × Nat)) (l : List ((Nat × Nat) × Nat)) :
    Decidable (IsCountEnum colors l) := by
  unfold IsCountEnum; infer_instance

/-! Concrete inputs used by the claim theorems. -/

/-- A status response with a valid header, a valid settings record, and one
truncated client record `"12"` (a parseable id, then nothing). -/
def c1Bytes : List Nat := statusHeader ++ strBytes "hostname\\x" ++ [10] ++ strBytes "12"

/-- A status response whose only record is the settings record, whose bytes
also decode as a valid client record. -/
def c9Body : List Nat := strBytes "1 2 3 4 \"a\" \"b\" 5 6"

/-- Buffer `statusHeader` followed by `c9Body`. -/
def c9Bytes : List Nat := statusHeader ++ c9Body

/-- The client record the bytes of `c9Body` decode to. -/
def c9Client : QuakeClient :=
  ⟨1, str "a", str "", 2, 4, 3, 5, 6, str "b", str "", false, true⟩

/-- The tokens of the spec's spectator example line. -/
def c3Parts : List Str :=
  tokenize (str "74 -9999 3 -33 \"\\s\\ razor\" \"8\" 3 11 \"sr\" \"\"")

/-- The client the spec's spectator example line decodes to. -/
def c3Client : QuakeClient :=
  ⟨74, str " razor", str "sr", 0, 33, 3, 3, 11, str "8", str "", true, false⟩

/-- C1: false as stated — a truncated record does not get silently dropped;
it panics the whole decode.  The buffer `c1Bytes` passes header validation,
its first record `"hostname\x"` meets the minimum settings length, yet
`Status119Response::try_from` does not return at all: the truncated second
record `"12"` parses an id and then indexes `parts[1]` out of bounds
(src/client.rs:36), aborting the decode with a panic instead of `Ok`. -/
theorem status_truncated_record_panics :
    Status119Response.tryFrom asciiDecode c1Bytes = .panicked := by decide

/-- C2: false as stated — on the one-token line `"12"` the decoder does not
return an error value: `parts[0]` parses as the id and the access to
`parts[1]` (src/client.rs:36) is an out-of-bounds index, i.e. a panic,
although the line has fewer than 8 tokens. -/
theorem client_short_token_list_panics :
    QuakeClient.tryFromLine (str "12") = .panicked := by decide

/-- C3: for every successfully decoded client record, `is_spectator` holds
iff the raw ping (the parse of token 3) is < 1; a spectator's frags are
forced to 0 and every leading `\s\` is stripped from the name (token 4);
the stored ping is the absolute value of the raw ping; and `is_bot` holds
iff the stored ping lies outside the inclusive range [12, 600]. -/
theorem client_derived_flags (parts : List Str) (c : QuakeClient) (t3 name0 : Str) (raw : Int)
    (h : QuakeClient.tryFromTokens parts = .ok c)
    (h3 : parts.get? 3 = some t3) (hraw : parseI 32 t3 = some raw)
    (h4 : parts.get? 4 = some name0) :
    (c.is_spectator = true ↔ raw < 1) ∧
    (c.is_spectator = true → c.frags = 0 ∧ c.name = trimS name0) ∧
    c.ping = raw.natAbs ∧
    (c.is_bot = true ↔ ¬ (12 ≤ c.ping ∧ c.ping ≤ 600)) := by
  simp only [QuakeClient.tryFromTokens] at h
  repeat' split at h
  all_goals try exact ClientRes.noConfusion h
  all_goals injection h with h
  all_goals subst h
  all_goals simp_all [decide_eq_true_iff]
  all_goals omega

/-- Witness for `client_derived_flags` at the spec's spectator example:
raw ping `-33`, name `"\s\ razor"`. -/
theorem client_derived_flags_witness :
    (c3Client.is_spectator = true ↔ (-33 : Int) < 1) ∧
    (c3Client.is_spectator = true → c3Client.frags = 0 ∧
      c3Client.name = trimS (str "\\s\\ razor")) ∧
    c3Client.ping = (-33 : Int).natAbs ∧
    (c3Client.is_bot = true ↔ ¬ (12 ≤ c3Client.ping ∧ c3Client.ping ≤ 600)) :=
  client_derived_flags c3Parts c3Client (str "-33") (str "\\s\\ razor") (-33)
    (by decide) (by decide) (by decide) (by decide)

/-- C7: the decode returns the "Invalid header" error exactly when the input
does not start with `0xFF 0xFF 0xFF 0xFF 'n'`; it returns the "Invalid
body" error exactly when the header is valid but there is no record or the
first record is shorter than `MIN_SERVERINFO_LENGTH`; and no other error
value is ever returned. -/
theorem status_fatal_error_conditions (decode : List Nat → Str) (bytes : List Nat) :
    (Status119Response.tryFrom decode bytes = .err .invalidHeader ↔
      ¬ statusHeader.isPrefixOf bytes = true) ∧
    (Status119Response.tryFrom decode bytes = .err .invalidBody ↔
      (statusHeader.isPrefixOf bytes = true ∧
        (rustSplitLines (bytes.drop statusHeader.length) = [] ∨
          ((rustSplitLines (bytes.drop statusHeader.length)).headD []).length <
            MIN_SERVERINFO_LENGTH))) ∧
    (∀ e, Status119Response.tryFrom decode bytes = .err e →
      e = .invalidHeader ∨ e = .invalidBody) := by
  unfold Status119Response.tryFrom
  by_cases h1 : statusHeader.isPrefixOf bytes
  · by_cases h2 : rustSplitLines (bytes.drop statusHeader.length) = [] ∨
        ((rustSplitLines (bytes.drop statusHeader.length)).headD []).length <
          MIN_SERVERINFO_LENGTH
    · simp only [List.headD_eq_head?_getD] at h2
      simp [h1, h2]
    · simp only [List.headD_eq_head?_getD] at h2
      cases hc : classifyRows decode (rustSplitLines (bytes.drop statusHeader.length)) [] none with
      | none => simp [h1, h2, hc]
      | some p => simp [h1, h2, hc]
  · simp [h1]

/-- Witness for `status_fatal_error_conditions`: the two invalid buffers of
the repository's own test (src/svc_status.rs:94-100). -/
theorem status_fatal_error_conditions_witness :
    Status119Response.tryFrom asciiDecode [0] = .err .invalidHeader ∧
    Status119Response.tryFrom asciiDecode [255, 255, 255, 255, 110, 0] = .err .invalidBody :=
  ⟨(status_fatal_error_conditions asciiDecode [0]).1.mpr (by decide),
    (status_fatal_error_conditions asciiDecode [255, 255, 255, 255, 110, 0]).2.1.mpr (by decide)⟩

/-- Helper: `trimS` leaves a list unchanged when it does not start with the
pattern `\s\`. -/
theorem trimS_eq_self (s : Str) (h : ∀ rest, s ≠ '\\' :: 's' :: '\\' :: rest) : trimS s = s := by
  unfold trimS
  split
  · rename_i rest; exact absurd rfl (h rest)
  · rfl

/-- Helper: the result of `trimS` never still starts with `\s\`, i.e. every
leading repetition has been removed. -/
theorem trimS_no_leading_pattern (s : Str) : (str "\\s\\").isPrefixOf (trimS s) = false := by
  induction s using trimS.induct with
  | case1 rest ih =>
      rw [show trimS ('\\' :: 's' :: '\\' :: rest) = trimS rest from by rw [trimS]]
      exact ih
  | case2 s hna =>
      rw [trimS_eq_self s (fun rest hr => hna rest hr)]
      rcases s with _ | ⟨a, _ | ⟨b, _ | ⟨c, t⟩⟩⟩ <;>
        simp_all [str, List.isPrefixOf, List.cons.injEq]
      intro h1 h2 h3
      exact hna t h1.symm h2.symm h3.symm rfl

/-- C10: a spectator whose display name starts with several consecutive
`\s\` sequences has all of them removed (`trim_start_matches` semantics):
the spectator line with name `\s\\s\x` decodes with name `x`, and in
general the trimmed name never retains a leading `\s\`. -/
theorem spectator_name_trims_all_reps :
    QuakeClient.tryFromLine (str "74 -9999 3 -33 \"\\s\\\\s\\x\" \"\" 3 11 \"sr\" \"\"") =
      .ok ⟨74, str "x", str "sr", 0, 33, 3, 3, 11, str "", str "", true, false⟩ ∧
    ∀ s : Str, (str "\\s\\").isPrefixOf (trimS s) = false :=
  ⟨by decide, trimS_no_leading_pattern⟩

/-- C9 counterexample: the claim says the first record never appears in the
client list, but the classification loop (src/svc_status.rs:67) runs over
every record including the first.  On `c9Bytes`, whose only record is the
settings record, the decode returns that record both as the settings and
as a decoded client. -/
theorem status_first_record_in_client_list :
    Status119Response.tryFrom asciiDecode c9Bytes = .ok ⟨c9Body, [c9Client], none⟩ := by
  decide

/-- Helper: the classification loop only ever appends to the client
accumulator. -/
theorem classifyRows_clients_extend (decode : List Nat → Str) :
    ∀ (rows : List (List Nat)) (acc : List QuakeClient) (qtv : Option QtvStream)
      (cl : List QuakeClient) (q : Option QtvStream),
      classifyRows decode rows acc qtv = some (cl, q) → ∃ s, cl = acc ++ s := by
  intro rows
  induction rows with
  | nil =>
      intro acc qtv cl q h
      simp only [classifyRows, Option.some.injEq, Prod.mk.injEq] at h
      exact ⟨[], by simp [h.1.symm]⟩
  | cons row rest ih =>
      intro acc qtv cl q h
      simp only [classifyRows] at h
      split at h
      · split at h
        · exact Option.noConfusion h
        · exact ih acc _ cl q h
        · exact ih acc none cl q h
      · split at h
        · exact Option.noConfusion h
        · obtain ⟨s, hs⟩ := ih (acc ++ [_]) qtv cl q h
          exact ⟨_ :: s, by simpa using hs⟩
        · exact ih acc qtv cl q h

/-- Helper: a non-`qtv` record that decodes as a client is appended by the
classification loop. -/
theorem classifyRows_cons_client (decode : List Nat → Str) (row : List Nat)
    (rest : List (List Nat)) (clients : List QuakeClient) (qtv : Option QtvStream)
    (c : QuakeClient)
    (hnq : (strBytes "qtv ").isPrefixOf row = false)
    (hc : QuakeClient.tryFromLine (decode row) = .ok c) :
    classifyRows decode (row :: rest) clients qtv =
      classifyRows decode rest (clients ++ [c]) qtv := by
  rw [classifyRows, if_neg (by simp [hnq]), hc]

/-- C9 amended: the classification loop runs over every record including
the first; the first record is handed to the settings collaborator and is
additionally classified, so a first record that is not a `"qtv "` line and
decodes as a client heads the client list of a successful decode. -/
theorem status_first_record_classified (decode : List Nat → Str) (bytes : List Nat)
    (r : Status119Response) (row0 : List Nat) (rest : List (List Nat)) (c : QuakeClient)
    (hok : Status119Response.tryFrom decode bytes = .ok r)
    (hrows : rustSplitLines (bytes.drop statusHeader.length) = row0 :: rest)
    (hnq : (strBytes "qtv ").isPrefixOf row0 = false)
    (hc : QuakeClient.tryFromLine (decode row0) = .ok c) :
    r.clients.head? = some c := by
  unfold Status119Response.tryFrom at hok
  by_cases h1 : statusHeader.isPrefixOf bytes
  · simp only [h1, not_true, if_false, ite_false, ite_true, if_true] at hok
    rw [hrows] at hok
    split at hok
    · exact StatusRes.noConfusion hok
    · rw [classifyRows_cons_client decode row0 rest [] none c hnq hc] at hok
      simp only [List.nil_append] at hok
      cases hcr : classifyRows decode rest [c] none with
      | none => rw [hcr] at hok; exact StatusRes.noConfusion hok
      | some p =>
          obtain ⟨cl, q⟩ := p
          rw [hcr] at hok
          simp only [StatusRes.ok.injEq] at hok
          obtain ⟨s, hs⟩ := classifyRows_clients_extend decode rest [c] none cl q hcr
          rw [← hok]
          simp [hs]
  · simp [h1] at hok

/-- Witness for `status_first_record_classified` on `c9Bytes`: the settings
record itself decodes as a client and heads the client list. -/
theorem status_first_record_classified_witness :
    (⟨c9Body, [c9Client], none⟩ : Status119Response).clients.head? = some c9Client :=
  status_first_record_classified asciiDecode c9Bytes ⟨c9Body, [c9Client], none⟩ c9Body []
    c9Client (by decide) (by decide) (by decide) (by decide)

/-- C6 counterexample: the claim says a locator with no `:` defaults the
port to 0 rather than failing the record, but `Hostport::try_from`
(src/hostport.rs:19-21) errors when `:` is absent and the `?` at
src/qtv.rs:96 propagates that error, failing the whole stream record. -/
theorem qtv_locator_missing_colon_fails :
    QtvStream.tryFromLine (str "qtv 1 \"n\" \"nocolon\" 2") = .err ∧
    Hostport.tryFrom (str "nocolon") = none :=
  ⟨by decide, by decide⟩

/-- Helper: `split_once` finds nothing when the separator is absent. -/
theorem splitOnce_eq_none (sep : Char) : ∀ s : Str, sep ∉ s → splitOnce sep s = none := by
  intro s
  induction s with
  | nil => intro _; rfl
  | cons c rest ih =>
      intro h
      rw [splitOnce, if_neg (by simp_all [eq_comm]), ih (by simp_all)]

/-- Helper: `split_once` splits at the first separator occurrence. -/
theorem splitOnce_append (sep : Char) : ∀ a b : Str, sep ∉ a →
    splitOnce sep (a ++ sep :: b) = some (a, b) := by
  intro a
  induction a with
  | nil => intro b _; simp [splitOnce]
  | cons c rest ih =>
      intro b h
      rw [List.cons_append, splitOnce, if_neg (by simp_all [eq_comm]), ih b (by simp_all)]

/-- C6 amended: with no `@` the channel number defaults to 0 and the whole
token is the locator; unparsable channel text before an `@` defaults the
channel number to 0 without failing the record; but a locator with no `:`
makes `Hostport::try_from` fail, which fails the whole stream record
(yielding an absent stream in the status response) instead of defaulting
the port to 0. -/
theorem qtv_locator_spec :
    (∀ url : Str, '@' ∉ url → parseLocator url = (0, url)) ∧
    (∀ numStr hp : Str, '@' ∉ numStr → parseU 32 numStr = none →
      parseLocator (numStr ++ '@' :: hp) = (0, hp)) ∧
    (∀ s : Str, ':' ∉ s → Hostport.tryFrom s = none) ∧
    (∀ (parts : List Str) (t1 nm url t4 : Str) (idv cnt : Nat),
      parts.get? 1 = some t1 → parseU 32 t1 = some idv →
      parts.get? 2 = some nm →
      parts.get? 3 = some url → parts.get? 4 = some t4 → parseU 32 t4 = some cnt →
      ':' ∉ (parseLocator url).2 →
      QtvStream.tryFromTokens parts = .err) := by
  have hcolon : ∀ s : Str, ':' ∉ s → Hostport.tryFrom s = none := by
    intro s hs
    rw [Hostport.tryFrom, splitOnce_eq_none ':' s hs]
  refine ⟨?_, ?_, hcolon, ?_⟩
  · intro url h
    rw [parseLocator, splitOnce_eq_none '@' url h]
  · intro numStr hp h hparse
    rw [parseLocator, splitOnce_append '@' numStr hp h]
    simp [hparse]
  · intro parts t1 nm url t4 idv cnt h1 hid h2 h3 h4 hcnt hnc
    simp only [QtvStream.tryFromTokens, h1, hid, h2, h3, h4, hcnt, hcolon _ hnc]

/-- Witness for `qtv_locator_spec` at concrete locators. -/
theorem qtv_locator_spec_witness :
    parseLocator (str "zasadzka.pl:28000") = (0, str "zasadzka.pl:28000") ∧
    parseLocator (str "x2x" ++ '@' :: str "h:1") = (0, str "h:1") ∧
    Hostport.tryFrom (str "nohost") = none ∧
    QtvStream.tryFromTokens (tokenize (str "qtv 7 \"x\" \"3@nohost\" 1")) = .err :=
  ⟨qtv_locator_spec.1 (str "zasadzka.pl:28000") (by decide),
    qtv_locator_spec.2.1 (str "x2x") (str "h:1") (by decide) (by decide),
    qtv_locator_spec.2.2.1 (str "nohost") (by decide),
    qtv_locator_spec.2.2.2 (tokenize (str "qtv 7 \"x\" \"3@nohost\" 1"))
      (str "7") (str "x") (str "3@nohost") (str "1") 7 1
      (by decide) (by decide) (by decide) (by decide) (by decide) (by decide) (by decide)⟩

/-- A color list with a tie: two members wear (1,1) and two wear (2,2). -/
def c5Colors : List (Nat × Nat) := [(1, 1), (2, 2), (2, 2), (1, 1)]

/-- C5 counterexample: the claim says ties are resolved deterministically in
favour of the earliest-processed member, but `get_majority_color` iterates
a `HashMap` (src/team.rs:85) whose order is unspecified: both entry orders
below are valid enumerations of the count map of `c5Colors`, and they
produce different winners — one of them is not the earliest member's pair
`(1, 1)`. -/
theorem majority_color_tie_order_dependent :
    IsCountEnum c5Colors [((1, 1), 2), ((2, 2), 2)] ∧
    IsCountEnum c5Colors [((2, 2), 2), ((1, 1), 2)] ∧
    getMajorityColorWithEnum c5Colors [((1, 1), 2), ((2, 2), 2)] = (1, 1) ∧
    getMajorityColorWithEnum c5Colors [((2, 2), 2), ((1, 1), 2)] = (2, 2) :=
  ⟨by decide, by decide, by decide, by decide⟩

/-- Helper: the max-count scan returns a value at least as large as its
start and as every scanned count, and is either the start or one of the
scanned entries. -/
theorem getMajorityColorFold_spec :
    ∀ (l : List ((Nat × Nat) × Nat)) (acc : Nat × (Nat × Nat)),
      acc.1 ≤ (l.foldl maxFoldStep acc).1 ∧
      (∀ e ∈ l, e.2 ≤ (l.foldl maxFoldStep acc).1) ∧
      ((l.foldl maxFoldStep acc) = acc ∨ ∃ e ∈ l, (l.foldl maxFoldStep acc) = (e.2, e.1)) := by
  intro l
  induction l with
  | nil => intro acc; exact ⟨le_refl _, by simp, Or.inl rfl⟩
  | cons e rest ih =>
      intro acc
      simp only [List.foldl_cons]
      obtain ⟨h1, h2, h3⟩ := ih (maxFoldStep acc e)
      have hstep : acc.1 ≤ (maxFoldStep acc e).1 ∧ e.2 ≤ (maxFoldStep acc e).1 := by
        unfold maxFoldStep
        split
        · exact ⟨by show acc.1 ≤ e.2; omega, by show e.2 ≤ e.2; omega⟩
        · exact ⟨le_refl _, by omega⟩
      refine ⟨le_trans hstep.1 h1, ?_, ?_⟩
      · intro e' he'
        rcases List.mem_cons.mp he' with rfl | he'
        · exact le_trans hstep.2 h1
        · exact h2 e' he'
      · rcases h3 with h | ⟨e', he', heq⟩
        · have : maxFoldStep acc e = acc ∨ maxFoldStep acc e = (e.2, e.1) := by
            unfold maxFoldStep; split
            · exact Or.inr rfl
            · exact Or.inl rfl
          rcases this with h' | h'
          · exact Or.inl (h.trans h')
          · exact Or.inr ⟨e, List.mem_cons_self e rest, h.trans h'⟩
        · exact Or.inr ⟨e', List.mem_cons_of_mem e he', heq⟩

/-- C5 amended: with fewer than 3 member color pairs the first member's
pair is used without counting (`(0,0)` for no members); with 3 or more,
the winner is some pair of maximal count — in particular a uniquely most
frequent pair always wins — but which pair wins a tie depends on the hash
map's iteration order, not on the earliest-processed member. -/
theorem get_majority_color_spec (colors : List (Nat × Nat)) (l : List ((Nat × Nat) × Nat))
    (h : IsCountEnum colors l) :
    (colors = [] → getMajorityColorWithEnum colors l = (0, 0)) ∧
    (colors ≠ [] → colors.length < 3 →
      getMajorityColorWithEnum colors l = colors.headD (0, 0)) ∧
    (3 ≤ colors.length →
      getMajorityColorWithEnum colors l ∈ colors ∧
      ∀ c, colors.count c ≤ colors.count (getMajorityColorWithEnum colors l)) ∧
    (3 ≤ colors.length → ∀ u ∈ colors,
      (∀ c ∈ colors, c ≠ u → colors.count c < colors.count u) →
      getMajorityColorWithEnum colors l = u) := by
  obtain ⟨hperm, hcount⟩ := h
  have hmem : ∀ c : Nat × Nat, c ∈ colors ↔ c ∈ l.map Prod.fst := by
    intro c
    rw [hperm.mem_iff, List.mem_dedup]
  have main : 3 ≤ colors.length →
      getMajorityColorWithEnum colors l ∈ colors ∧
      ∀ c, colors.count c ≤ colors.count (getMajorityColorWithEnum colors l) := by
    intro h3
    have hne : colors ≠ [] := by
      intro hc; rw [hc] at h3; simp at h3
    have hres : getMajorityColorWithEnum colors l = (getMajorityColorFold l).2 := by
      unfold getMajorityColorWithEnum
      rw [if_neg hne, if_neg (by omega)]
    obtain ⟨hf1, hf2, hf3⟩ := getMajorityColorFold_spec l (0, (0, 0))
    have hc0 : colors.headD (0, 0) ∈ colors := by
      cases colors with
      | nil => exact absurd rfl hne
      | cons a as => exact List.mem_cons_self a as
    obtain ⟨e0, he0, he0fst⟩ := List.mem_map.mp ((hmem _).mp hc0)
    have he0cnt : e0.2 = colors.count e0.1 := hcount e0 he0
    have he0pos : 1 ≤ e0.2 := by
      rw [he0cnt, he0fst]
      exact List.count_pos_iff.mpr hc0
    have hfoldpos : 1 ≤ (getMajorityColorFold l).1 :=
      le_trans he0pos (hf2 e0 he0)
    have hnotinit : ¬ (getMajorityColorFold l) = (0, (0, 0)) := by
      intro hinit
      rw [hinit] at hfoldpos
      simp at hfoldpos
    obtain ⟨e, he, heq⟩ := hf3.resolve_left hnotinit
    have hresfst : getMajorityColorWithEnum colors l = e.1 := by
      rw [hres, show getMajorityColorFold l = l.foldl maxFoldStep (0, (0, 0)) from rfl, heq]
    have hecount : e.2 = colors.count e.1 := hcount e he
    have hein : e.1 ∈ colors := (hmem e.1).mpr (List.mem_map.mpr ⟨e, he, rfl⟩)
    constructor
    · rw [hresfst]; exact hein
    · intro c
      rw [hresfst, ← hecount]
      by_cases hcin : c ∈ colors
      · obtain ⟨ec, hec, hecfst⟩ := List.mem_map.mp ((hmem c).mp hcin)
        have hcc : colors.count c = ec.2 := by rw [hcount ec hec, hecfst]
        rw [hcc]
        have hle := hf2 ec hec
        rw [heq] at hle
        exact hle
      · rw [List.count_eq_zero_of_not_mem hcin]
        exact Nat.zero_le _
  refine ⟨?_, ?_, main, ?_⟩
  · intro hc
    unfold getMajorityColorWithEnum
    rw [if_pos hc]
  · intro hne hlt
    unfold getMajorityColorWithEnum
    rw [if_neg hne, if_pos hlt]
  · intro h3 u hu huniq
    obtain ⟨hin, hmax⟩ := main h3
    by_contra hneq
    have hlt := huniq _ hin hneq
    have hge := hmax u
    omega

/-- Witness for `get_majority_color_spec`: a two-member team uses the first
pair without counting, and a unique plurality winner wins. -/
theorem get_majority_color_spec_witness :
    getMajorityColorWithEnum [(3, 4), (5, 6)] [((3, 4), 1), ((5, 6), 1)] = (3, 4) ∧
    getMajorityColorWithEnum [(1, 1), (2, 2), (2, 2)] [((1, 1), 1), ((2, 2), 2)] = (2, 2) :=
  ⟨(get_majority_color_spec [(3, 4), (5, 6)] [((3, 4), 1), ((5, 6), 1)] (by decide)).2.1
      (by decide) (by decide),
    (get_majority_color_spec [(1, 1), (2, 2), (2, 2)] [((1, 1), 1), ((2, 2), 2)]
      (by decide)).2.2.2 (by decide) (2, 2) (by decide) (by decide)⟩

/-- Helper: the tokenize fold, run from any state, appends exactly the
tokens `tokAux` computes from the remaining characters. -/
theorem tokenize_foldl (cs : Str) : ∀ st : TkState,
    (cs.foldl tokenizeStep st).tokens ++ [(cs.foldl tokenizeStep st).current] =
      st.tokens ++ tokAux cs st.current st.inQuote := by
  induction cs with
  | nil => intro st; rfl
  | cons c rest ih =>
      intro st
      rw [List.foldl_cons, ih (tokenizeStep st c)]
      by_cases h1 : c = '"'
      · simp [tokenizeStep, tokAux, h1]
      by_cases h2 : c = ' '
      · cases hq : st.inQuote <;> simp [tokenizeStep, tokAux, h1, h2, hq]
      · simp [tokenizeStep, tokAux, h1, h2]

/-- Helper: `tokenize` equals its recursive companion. -/
theorem tokenize_eq_tokAux (s : Str) : tokenize s = tokAux s [] false := by
  unfold tokenize
  have h := tokenize_foldl s ⟨[], [], false⟩
  simpa using h

/-- Helper: the number of produced tokens is the number of token-boundary
spaces plus one. -/
theorem tokAux_length : ∀ (cs cur : Str) (q : Bool),
    (tokAux cs cur q).length = unquotedSpaces cs q + 1 := by
  intro cs
  induction cs with
  | nil => intro cur q; simp [tokAux, unquotedSpaces]
  | cons c rest ih =>
      intro cur q
      by_cases h1 : c = '"'
      · simp [tokAux, unquotedSpaces, h1, ih]
      by_cases h2 : c = ' '
      · cases hq : q <;> (simp [tokAux, unquotedSpaces, h1, h2, ih]; try omega)
      · simp [tokAux, unquotedSpaces, h1, h2, ih]

/-- Helper: no produced token ever contains a double quote. -/
theorem tokAux_no_quote : ∀ (cs cur : Str) (q : Bool), '"' ∉ cur →
    ∀ t ∈ tokAux cs cur q, '"' ∉ t := by
  intro cs
  induction cs with
  | nil =>
      intro cur q hcur t ht
      simp [tokAux] at ht
      subst ht; exact hcur
  | cons c rest ih =>
      intro cur q hcur t ht
      by_cases h1 : c = '"'
      · rw [tokAux, if_pos h1] at ht
        exact ih cur (!q) hcur t ht
      by_cases h2 : c = ' '
      · rw [tokAux, if_neg h1, if_pos h2] at ht
        cases hq : q with
        | true =>
            rw [hq] at ht
            exact ih (cur ++ [' ']) true (by simp_all) t ht
        | false =>
            rw [hq] at ht
            rcases List.mem_cons.mp ht with rfl | ht'
            · exact hcur
            · exact ih [] false (by simp) t ht'
      · rw [tokAux, if_neg h1, if_neg h2] at ht
        exact ih (cur ++ [c]) q (by simp_all [eq_comm]) t ht

/-- Helper: a space at even quote parity is a token boundary: the output
splits around it. -/
theorem tokAux_space_split : ∀ (a t cur : Str) (q : Bool), endQuote a q = false →
    tokAux (a ++ ' ' :: t) cur q = tokAux a cur q ++ tokAux t [] false := by
  intro a
  induction a with
  | nil =>
      intro t cur q hq
      rw [endQuote] at hq
      subst hq
      simp [tokAux]
  | cons c rest ih =>
      intro t cur q hq
      rw [endQuote] at hq
      by_cases h1 : c = '"'
      · rw [if_pos h1] at hq
        rw [List.cons_append, tokAux, if_pos h1, tokAux, if_pos h1, ih t cur (!q) hq]
      rw [if_neg h1] at hq
      by_cases h2 : c = ' '
      · cases hqv : q with
        | true =>
            subst hqv
            rw [List.cons_append, tokAux, if_neg h1, if_pos h2, tokAux, if_neg h1, if_pos h2]
            simp only [if_pos rfl]
            exact ih t (cur ++ [' ']) true hq
        | false =>
            subst hqv
            rw [List.cons_append, tokAux, if_neg h1, if_pos h2, tokAux, if_neg h1, if_pos h2]
            simp only [Bool.false_eq_true, if_false, ite_false]
            rw [ih t [] false hq]
            simp
      · rw [List.cons_append, tokAux, if_neg h1, if_neg h2, tokAux, if_neg h1, if_neg h2,
          ih t (cur ++ [c]) q hq]

/-- Helper: the end-of-input quote mode is the parity of the double quotes
seen, xor the starting mode. -/
theorem endQuote_eq (s : Str) : ∀ q, endQuote s q = Bool.xor (decide (s.count '"' % 2 = 1)) q := by
  induction s with
  | nil => intro q; simp [endQuote]
  | cons c rest ih =>
      intro q
      rw [endQuote, ih]
      by_cases h : c = '"'
      · subst h
        rw [List.count_cons_self]
        by_cases hp : rest.count '"' % 2 = 1
        · have h0 : (rest.count '"' + 1) % 2 = 0 := by omega
          simp [hp, h0]
        · have h1 : (rest.count '"' + 1) % 2 = 1 := by omega
          simp [hp, h1]
      · rw [List.count_cons_of_ne (fun hc => h hc.symm), if_neg h]

/-- C8: `tokenize` is total and always returns `#unquoted-spaces + 1`
tokens (hence at least one); the empty input yields exactly one empty
token; a double quote never appears in any output token; with even quote
parity a space splits the output into the tokens before and after it
(consecutive unquoted spaces hence yield empty tokens, and the final
token is always emitted); and inside quotation mode a space is appended
verbatim to the current token. -/
theorem tokenize_spec :
    (∀ s : Str, (tokenize s).length = unquotedSpaces s false + 1) ∧
    tokenize [] = [[]] ∧
    (∀ s : Str, ∀ t ∈ tokenize s, '"' ∉ t) ∧
    (∀ s t : Str, s.count '"' % 2 = 0 →
      tokenize (s ++ ' ' :: t) = tokenize s ++ tokenize t) ∧
    (∀ st : TkState, st.inQuote = true →
      tokenizeStep st ' ' = { st with current := st.current ++ [' '] }) := by
  refine ⟨?_, rfl, ?_, ?_, ?_⟩
  · intro s
    rw [tokenize_eq_tokAux]
    exact tokAux_length s [] false
  · intro s t ht
    rw [tokenize_eq_tokAux] at ht
    exact tokAux_no_quote s [] false (by simp) t ht
  · intro s t hc
    rw [tokenize_eq_tokAux, tokenize_eq_tokAux, tokenize_eq_tokAux]
    refine tokAux_space_split s t [] false ?_
    rw [endQuote_eq]
    simp
    omega
  · intro st h
    simp [tokenizeStep, h]

/-- Witness for `tokenize_spec`: a concrete split at an unquoted space and
a concrete quoted space kept in the token. -/
theorem tokenize_spec_witness :
    tokenize (str "ab" ++ ' ' :: str "cd") = tokenize (str "ab") ++ tokenize (str "cd") ∧
    tokenizeStep ⟨[], str "a b", true⟩ ' ' = ⟨[], str "a b" ++ [' '], true⟩ :=
  ⟨tokenize_spec.2.2.2.1 (str "ab") (str "cd") (by decide),
    tokenize_spec.2.2.2.2 ⟨[], str "a b", true⟩ rfl⟩

instance (players : List Player) (teamEnum : List Str) :
    Decidable (IsTeamEnum players teamEnum) := by
  unfold IsTeamEnum; infer_instance

/-- Helper: `wrap32` only depends on its argument modulo `2^32`, so a
wrapped addition may be unwrapped on the left. -/
theorem wrap32_add_left (a b : Int) : wrap32 (wrap32 a + b) = wrap32 (a + b) := by
  unfold wrap32
  omega

/-- Helper: a fold of wrapping additions computes the wrap of the exact sum. -/
theorem foldl_wrap32_add (fs : List Int) :
    ∀ acc : Int, fs.foldl (fun a f => wrap32 (a + f)) (wrap32 acc) = wrap32 (acc + fs.sum) := by
  induction fs with
  | nil => intro acc; simp
  | cons f rest ih =>
      intro acc
      rw [List.foldl_cons, wrap32_add_left, ih (acc + f), List.sum_cons]
      ring_nf

/-- Helper: the `i32` frags accumulation is the wrap of the exact sum. -/
theorem teamFragsI32_eq_wrap (players : List Player) (t : Str) :
    teamFragsI32 players t = wrap32 (specTeamFrags players t) := by
  unfold teamFragsI32 specTeamFrags
  have h0 : (0 : Int) = wrap32 0 := by unfold wrap32; omega
  rw [h0, foldl_wrap32_add, Int.zero_add]

/-- Helper: wrapping is the identity on the `i32` range. -/
theorem wrap32_eq_self (z : Int) (h1 : -2147483648 ≤ z) (h2 : z < 2147483648) :
    wrap32 z = z := by
  unfold wrap32
  omega

/-- A concrete total, transitive, decidable comparator used by the C4
counterexample and witness: compare names by length. -/
def strLenLe (a b : Str) : Prop := a.length ≤ b.length

instance : DecidableRel strLenLe := fun a b => Nat.decLe a.length b.length

instance : IsTotal Str strLenLe := ⟨fun a b => Nat.le_total a.length b.length⟩

instance : IsTrans Str strLenLe := ⟨fun _ _ _ hab hbc => Nat.le_trans hab hbc⟩

/-- Three players of team `red` with pings summing to `12600001`: the
exact mean is `4200000 + 1/3`, whose nearest integer is `4200000`. -/
def c4BigPlayers : List Player :=
  [⟨1, str "a", str "red", 1, 4200000, 0, 0, 0, str "", str "", false⟩,
    ⟨2, str "b", str "red", 1, 4200000, 0, 0, 0, str "", str "", false⟩,
    ⟨3, str "c", str "red", 1, 4200001, 0, 0, 0, str "", str "", false⟩]

/-- Two players of team `red` whose frags sum to `2^31`, one past the
`i32` maximum. -/
def c4WrapPlayers : List Player :=
  [⟨1, str "a", str "red", 2147483647, 10, 0, 0, 0, str "", str "", false⟩,
    ⟨2, str "b", str "red", 1, 10, 0, 0, 0, str "", str "", false⟩]

set_option maxRecDepth 4000 in
/-- C4 counterexample: the claim fails on the code in two ways.  On
`c4BigPlayers` the `f32` pipeline double-rounds: the exact quotient
`12600001 / 3 = 4200000.333…` rounds to the nearest representable `f32`
`4200000.5` (the ulp is `0.5` in that binade) and `f32::round` then gives
`4200001`, although the nearest integer to the mean is `4200000` — the
produced team ping exceeds the mean by more than one half (the strict
inequality below).  On `c4WrapPlayers` the `i32` frags accumulation wraps
to `-2^31` although the members' frags sum to `2^31`. -/
theorem team_aggregation_f32_deviation :
    fromPlayers strLenLe [str "red"] (fun _ => []) c4BigPlayers =
      [⟨str "red", 3, 4200001, 0, 0⟩] ∧
    teamPingSum c4BigPlayers (str "red") = 12600001 ∧
    teamCount c4BigPlayers (str "red") = 3 ∧
    2 * teamPingSum c4BigPlayers (str "red") + teamCount c4BigPlayers (str "red") <
      2 * teamCount c4BigPlayers (str "red") * teamPingF32 c4BigPlayers (str "red") ∧
    specTeamPing c4BigPlayers (str "red") = 4200000 ∧
    teamFragsI32 c4WrapPlayers (str "red") = -2147483648 ∧
    specTeamFrags c4WrapPlayers (str "red") = 2147483648 :=
  ⟨by decide, by decide, by decide, by decide, by decide, by decide, by decide⟩

/-- C4 amended: for a non-empty player list, `from_players` yields exactly
one team per distinct team name; each team's frags is the `i32` wrapping
sum of its members' frags — equal to the plain sum whenever that sum fits
in `i32`; each team's ping is the members' pings summed in `f32`, divided
by the member count in `f32`, and rounded half away from zero (which can
differ from the exact mean rounded to nearest, see the counterexample);
and the team list is sorted by the name comparator. -/
theorem from_players_spec (r : Str → Str → Prop) [DecidableRel r] [IsTotal Str r] [IsTrans Str r]
    (teamEnum : List Str) (colorEnum : Str → List ((Nat × Nat) × Nat)) (players : List Player)
    (henum : IsTeamEnum players teamEnum)
    (_hne : players ≠ []) :
    ((fromPlayers r teamEnum colorEnum players).map (fun t => t.name)).Perm
      ((players.map (fun p => p.team)).dedup) ∧
    (∀ t ∈ fromPlayers r teamEnum colorEnum players,
      t.frags = wrap32 (specTeamFrags players t.name) ∧
      (-2147483648 ≤ specTeamFrags players t.name → specTeamFrags players t.name < 2147483648 →
        t.frags = specTeamFrags players t.name) ∧
      t.ping = teamPingF32 players t.name ∧
      1 ≤ teamCount players t.name) ∧
    (fromPlayers r teamEnum colorEnum players).Sorted (teamLe r) := by
  have hperm : (fromPlayers r teamEnum colorEnum players).Perm
      (teamEnum.map (mkTeam colorEnum players)) :=
    List.perm_insertionSort (teamLe r) _
  refine ⟨?_, ?_, ?_⟩
  · have h1 : (teamEnum.map (mkTeam colorEnum players)).map (fun t => t.name) = teamEnum := by
      rw [List.map_map]
      have hcomp : ((fun t : Team => t.name) ∘ mkTeam colorEnum players) = id :=
        funext (fun x => rfl)
      rw [hcomp, List.map_id]
    have h2 := hperm.map (fun t => t.name)
    rw [h1] at h2
    exact h2.trans henum
  · intro t ht
    have ht' : t ∈ teamEnum.map (mkTeam colorEnum players) := hperm.mem_iff.mp ht
    obtain ⟨x, hx, rfl⟩ := List.mem_map.mp ht'
    have hxin : x ∈ (players.map (fun p => p.team)).dedup := henum.mem_iff.mp hx
    have hxmem : x ∈ players.map (fun p => p.team) := List.mem_dedup.mp hxin
    obtain ⟨p, hp, hpx⟩ := List.mem_map.mp hxmem
    have hcount : 1 ≤ teamCount players x := by
      have hpf : p ∈ teamMembers players x := by
        simp [teamMembers, List.mem_filter, hp, hpx]
      have := List.length_pos.mpr (List.ne_nil_of_mem hpf)
      unfold teamCount
      omega
    have hname : (mkTeam colorEnum players x).name = x := rfl
    have hwrap : (mkTeam colorEnum players x).frags = wrap32 (specTeamFrags players x) :=
      teamFragsI32_eq_wrap players x
    refine ⟨?_, ?_, rfl, ?_⟩
    · rw [hname]
      exact hwrap
    · intro hlo hhi
      rw [hname] at hlo hhi ⊢
      rw [hwrap, wrap32_eq_self _ hlo hhi]
    · rw [hname]
      exact hcount
  · haveI : IsTotal Team (teamLe r) := ⟨fun a b => IsTotal.total (r := r) a.name b.name⟩
    haveI : IsTrans Team (teamLe r) := ⟨fun a b c hab hbc => IsTrans.trans
      (r := r) a.name b.name c.name hab hbc⟩
    exact List.sorted_insertionSort (teamLe r) _

/-- Two players on two distinct teams, used by the `from_players` witness. -/
def c4Players : List Player :=
  [⟨75, str "a", str "red", 10, 12, 2, 4, 4, str "", str "", false⟩,
    ⟨80, str "b", str "blue", 7, 52, 2, 13, 13, str "", str "", false⟩]

/-- Witness for `from_players_spec` on `c4Players`. -/
theorem from_players_spec_witness :
    ((fromPlayers strLenLe [str "red", str "blue"] (fun _ => []) c4Players).map
        (fun t => t.name)).Perm ((c4Players.map (fun p => p.team)).dedup) ∧
    ((⟨str "red", 10, 12, 4, 4⟩ : Team).frags = wrap32 (specTeamFrags c4Players (str "red")) ∧
      (-2147483648 ≤ specTeamFrags c4Players (str "red") →
        specTeamFrags c4Players (str "red") < 2147483648 →
        (⟨str "red", 10, 12, 4, 4⟩ : Team).frags = specTeamFrags c4Players (str "red")) ∧
      (⟨str "red", 10, 12, 4, 4⟩ : Team).ping = teamPingF32 c4Players (str "red") ∧
      1 ≤ teamCount c4Players (str "red")) ∧
    (fromPlayers strLenLe [str "red", str "blue"] (fun _ => []) c4Players).Sorted
      (teamLe strLenLe) := by
  have h := from_players_spec strLenLe [str "red", str "blue"] (fun _ => []) c4Players
    (by decide) (by decide)
  exact ⟨h.1, h.2.1 ⟨str "red", 10, 12, 4, 4⟩ (by decide), h.2.2⟩
